import Mathlib

/-!
Verification development for the ArXtract retrieval-and-ranking pipeline.

The frontend (React/TypeScript) is embedded directly from the source files
`App.tsx` and `components/ChatPanel.tsx`.  The backend pipeline (document
fetching, chunking, similarity scoring, related-paper ranking, grounded chat,
document cache) is not part of the inspected sources; those components are
modelled from the specification, as indicated on each definition.
-/

namespace ArXtract

/-! ## String utilities

Executable models of the JavaScript string operations the frontend uses and
of the whitespace handling of the chunker. -/

/-- Model of JavaScript `String.prototype.trim`: strip leading and trailing
whitespace. -/
def strTrim (s : String) : String :=
  String.mk (((s.data.dropWhile Char.isWhitespace).reverse.dropWhile
    Char.isWhitespace).reverse)

/-- Splits a character stream into maximal whitespace-free words; `acc` holds
the characters of the current word in reverse. -/
def splitWordsAux : List Char → List Char → List String
  | [], acc => if acc = [] then [] else [String.mk acc.reverse]
  | c :: cs, acc =>
    if Char.isWhitespace c then
      (if acc = [] then [] else [String.mk acc.reverse]) ++ splitWordsAux cs []
    else splitWordsAux cs (c :: acc)

/-- The word sequence of a text: its maximal whitespace-free runs, in order.
Two texts are equal modulo whitespace normalization exactly when they have
the same word sequence. -/
def wordsOf (s : String) : List String := splitWordsAux s.data []

/-! ## Frontend data shapes (from the TypeScript interfaces in `App.tsx`) -/

/-- `ChunkScore` interface from `App.tsx`: a retrieved chunk with its score. -/
structure ChunkScore where
  text : String
  score : ℚ
  chunk_index : ℕ
deriving DecidableEq, Repr

/-- `SimilarityResult` interface from `App.tsx`. -/
structure SimilarityResult where
  abstract_score : ℚ
  abstract_text : String
  top_chunks : List ChunkScore
deriving DecidableEq, Repr

/-- `RelatedPaper` interface from `App.tsx`. -/
structure RelatedPaper where
  arxiv_id : String
  title : String
  authors : List String
  abstract : String
  url : String
  score : ℚ
deriving DecidableEq, Repr

/-- `RelatedPapersResult` interface from `App.tsx`. -/
structure RelatedPapersResult where
  papers : List RelatedPaper
deriving DecidableEq, Repr

/-- `PaperAnalysis` interface from `App.tsx` (the extraction result). -/
structure PaperAnalysis where
  title : Option String
  problem_statement : Option String
  task_type : Option String
  core_contribution : Option String
  model_architecture : Option String
  training_details : Option String
  datasets : List String
  evaluation_metrics : List String
  baselines : List String
  key_results : Option String
  limitations : Option String
  application_domains : List String
deriving DecidableEq, Repr

/-- Outcome of one HTTP request as observed by `handleAnalyze`: a response
with `res.ok` carrying a parsed JSON payload, or a failure (a non-ok status
or a rejected fetch promise; both reach the same `catch`-driven behaviour). -/
inductive Resp (α : Type) where
  | ok (payload : α)
  | fail
deriving DecidableEq, Repr

/-- The React state fields of `App` that `handleAnalyze` writes. -/
structure AnalyzeState where
  response : Option PaperAnalysis
  similarity : Option SimilarityResult
  relatedPapers : Option (List RelatedPaper)
  error : Option String
  loading : Bool
deriving DecidableEq, Repr

/-- `handleAnalyze` from `App.tsx`, as a function from the two text inputs and
the three request outcomes to the final component state.  It mirrors the
source exactly: state is reset, the guard throws on a blank arXiv input, the
three fetches are issued up front, and the responses are then examined
sequentially, each non-ok response throwing into the shared `catch`. -/
def handleAnalyze (arxivInput userPrompt : String)
    (ext : Resp PaperAnalysis) (sim : Resp SimilarityResult)
    (rel : Resp RelatedPapersResult) : AnalyzeState :=
  if strTrim arxivInput = "" then
    ⟨none, none, none, some "Please enter an arXiv ID or link.", false⟩
  else
    match ext with
    | .fail => ⟨none, none, none, some "Failed to analyze arXiv paper.", false⟩
    | .ok data =>
      if strTrim userPrompt = "" then
        ⟨some data, none, none, none, false⟩
      else
        match sim with
        | .fail =>
          ⟨some data, none, none, some "Similarity computation failed.", false⟩
        | .ok simData =>
          match rel with
          | .fail =>
            ⟨some data, some simData, none,
              some "Related papers search failed.", false⟩
          | .ok relData =>
            ⟨some data, some simData, some relData.papers, none, false⟩

/-- The three backend endpoints `handleAnalyze` can call. -/
inductive Endpoint where
  | extraction
  | similarity
  | related
deriving DecidableEq, Repr

/-- The requests `handleAnalyze` actually issues, in creation order: nothing
when the arXiv input is blank (the guard throws first), always the extraction
request otherwise, and the similarity and related requests exactly when the
research prompt is non-blank after trimming. -/
def issuedRequests (arxivInput userPrompt : String) : List Endpoint :=
  if strTrim arxivInput = "" then []
  else
    Endpoint.extraction ::
      (if strTrim userPrompt = "" then [] else [Endpoint.similarity, Endpoint.related])

/-! ## Chat panel (from `components/ChatPanel.tsx`) -/

/-- Message roles in the chat transcript. -/
inductive Role where
  | user
  | assistant
deriving DecidableEq, Repr

/-- `ChatMessage` interface from `ChatPanel.tsx`. -/
structure ChatMessage where
  role : Role
  content : String
deriving DecidableEq, Repr

/-- The fixed assistant reply appended when the chat request fails. -/
def errorReply : String := "Something went wrong. Please try again."

/-- `handleSend` from `ChatPanel.tsx` as a function on the transcript.
Inputs: the `arxivId` prop, the `input` and `loading` state, the current
transcript, and the request outcome (`some answer` when the fetch succeeded,
`none` on a non-ok status or rejection).  Returns the resulting transcript
and whether a request was sent.  The guards mirror the source: blank trimmed
input or an in-flight request, then a blank trimmed arXiv id, each return
without touching the transcript; otherwise the user turn is appended, the
request is sent, and exactly one assistant turn is appended. -/
def handleSend (arxivId input : String) (loading : Bool)
    (messages : List ChatMessage) (outcome : Option String) :
    List ChatMessage × Bool :=
  let query := strTrim input
  if query = "" ∨ loading then (messages, false)
  else if strTrim arxivId = "" then (messages, false)
  else
    (messages ++
      [⟨Role.user, query⟩, ⟨Role.assistant, outcome.getD errorReply⟩], true)

/-! ## Chunker

Modelled from the spec: the Chunker component itself is not among the
inspected sources.  It "splits normalized text into a sequence of chunks of a
fixed target word count (no overlap)", the last chunk may be shorter, empty
text yields an empty chunk sequence, and each chunk retains its ordinal
position.  A chunk's text is represented by its word sequence, the canonical
form of a text modulo whitespace normalization. -/

/-- A chunk: its ordinal position in the document and its text, represented
as the sequence of its words. -/
structure Chunk where
  index : ℕ
  words : List String
deriving DecidableEq, Repr

/-- Modelled from the spec: groups a word list into consecutive segments of
`size` words (the last possibly shorter), labelling each segment with its
ordinal position starting from `i`.  Recursion is on `fuel`, an upper bound
on the number of remaining words, so that the function evaluates by kernel
reduction. -/
def chunksGo (size : ℕ) : ℕ → ℕ → List String → List Chunk
  | 0, _, _ => []
  | fuel + 1, i, ws =>
    if ws = [] ∨ size = 0 then []
    else ⟨i, ws.take size⟩ :: chunksGo size fuel (i + 1) (ws.drop size)

/-- Modelled from the spec: the Chunker — split the normalized text into
fixed-size, ordered, non-overlapping word-count segments, indices starting
at 0. -/
def chunkText (size : ℕ) (t : String) : List Chunk :=
  chunksGo size (wordsOf t).length 0 (wordsOf t)

/-! ## SimilarityEngine

Modelled from the spec: the SimilarityEngine is not among the inspected
sources.  Embedding vectors are real vectors; cosine similarity is the dot
product divided by the product of the magnitudes, treated as 0 when either
magnitude is 0; surfaced scores clamp negatives to 0 and scale by 100 (or by
10 for related papers); scores are clamped into their declared range at the
boundary. -/

/-- Dot product of two numeric vectors (componentwise on the common length). -/
def dot : List ℝ → List ℝ → ℝ
  | [], _ => 0
  | _, [] => 0
  | x :: u, y :: v => x * y + dot u v

/-- Euclidean magnitude of a vector. -/
noncomputable def magnitude (v : List ℝ) : ℝ := Real.sqrt (dot v v)

/-- Modelled from the spec: cosine similarity — the dot product divided by
the product of the two magnitudes, treated as 0 when either magnitude is 0. -/
noncomputable def cosineSim (u v : List ℝ) : ℝ :=
  if magnitude u = 0 ∨ magnitude v = 0 then 0
  else dot u v / (magnitude u * magnitude v)

/-- Modelled from the spec: the 0–100 scoring policy — negative cosine values
are clamped to 0, then scaled by 100. -/
noncomputable def score100 (c : ℝ) : ℝ := max c 0 * 100

/-- Modelled from the spec: the 0–10 scoring policy used for related papers —
cosine × 10, negatives clamped to 0. -/
noncomputable def score10 (c : ℝ) : ℝ := max c 0 * 10

/-- Modelled from the spec: boundary coercion of the model-estimated
similarity into its declared range [0, 100]. -/
noncomputable def clamp100 (x : ℝ) : ℝ := min (max x 0) 100

/-- Modelled from the spec: the abstract-level relevance score — the
arithmetic mean of the embedding-cosine score of the expanded query against
the abstract and the model-estimated similarity of the same two texts. -/
noncomputable def scoreAbstract (queryEmb absEmb : List ℝ) (llmSim : ℝ) : ℝ :=
  (score100 (cosineSim queryEmb absEmb) + clamp100 llmSim) / 2

/-- Ranking order for scored chunks: higher score first, ties broken by lower
chunk index (earlier in the document wins). -/
def chunkBefore {α : Type} [LinearOrder α] (a b : ℕ × α) : Prop :=
  b.2 < a.2 ∨ (a.2 = b.2 ∧ a.1 ≤ b.1)

instance {α : Type} [LinearOrder α] : DecidableRel (@chunkBefore α _) :=
  fun a b => inferInstanceAs (Decidable (b.2 < a.2 ∨ (a.2 = b.2 ∧ a.1 ≤ b.1)))

instance {α : Type} [LinearOrder α] : IsTotal (ℕ × α) chunkBefore :=
  ⟨fun a b => by
    rcases lt_trichotomy a.2 b.2 with h | h | h
    · exact Or.inr (Or.inl h)
    · rcases Nat.le_total a.1 b.1 with hi | hi
      · exact Or.inl (Or.inr ⟨h, hi⟩)
      · exact Or.inr (Or.inr ⟨h.symm, hi⟩)
    · exact Or.inl (Or.inl h)⟩

instance {α : Type} [LinearOrder α] : IsTrans (ℕ × α) chunkBefore :=
  ⟨fun a b c hab hbc => by
    rcases hab with hab | ⟨hab, hab'⟩ <;> rcases hbc with hbc | ⟨hbc, hbc'⟩
    · exact Or.inl (hbc.trans hab)
    · exact Or.inl (hbc ▸ hab)
    · exact Or.inl (hab ▸ hbc)
    · exact Or.inr ⟨hab.trans hbc, hab'.trans hbc'⟩⟩

/-- Modelled from the spec: the numeric prefilter — the top `k` scored chunks
by score, ties broken by lower chunk index. -/
def prefilterTop {α : Type} [LinearOrder α] (k : ℕ) (l : List (ℕ × α)) :
    List (ℕ × α) :=
  (List.insertionSort chunkBefore l).take k

/-- Modelled from the spec: every chunk of the document is scored
independently by cosine similarity against the embedding of the expanded
query, under the 0–100 policy.  A chunk is given as (index, embedding). -/
noncomputable def scoredChunks (queryEmb : List ℝ)
    (chunks : List (ℕ × List ℝ)) : List (ℕ × ℝ) :=
  chunks.map fun c => (c.1, score100 (cosineSim queryEmb c.2))

/-- Modelled from the spec: the two-stage chunk funnel — the top 20 chunks by
cosine score go to a language-model filter (`select`, a black-box generative
call) that selects and orders the final chunks by qualitative relevance; the
boundary keeps only selections that are among the 20 candidates and returns
at most 5. -/
noncomputable def topChunksOf (queryEmb : List ℝ) (chunks : List (ℕ × List ℝ))
    (select : List (ℕ × ℝ) → List (ℕ × ℝ)) : List (ℕ × ℝ) :=
  let cands := prefilterTop 20 (scoredChunks queryEmb chunks)
  ((select cands).filter (· ∈ cands)).take 5

/-- Ranking order for related papers: higher score first. -/
def scoreBefore {ι α : Type} [LinearOrder α] (a b : ι × α) : Prop :=
  b.2 ≤ a.2

instance {ι α : Type} [LinearOrder α] : DecidableRel (@scoreBefore ι α _) :=
  fun a b => inferInstanceAs (Decidable (b.2 ≤ a.2))

instance {ι α : Type} [LinearOrder α] : IsTotal (ι × α) scoreBefore :=
  ⟨fun a b => le_total b.2 a.2⟩

instance {ι α : Type} [LinearOrder α] : IsTrans (ι × α) scoreBefore :=
  ⟨fun _ _ _ hab hbc => le_trans hbc hab⟩

/-- Modelled from the spec: the RelatedPaperFinder ranking pass — each
candidate abstract is embedded and scored by cosine similarity against the
expanded query embedding under the 0–10 policy, and candidates are ranked by
score.  A candidate is given as (arXiv id, abstract embedding). -/
noncomputable def relatedRanked (queryEmb : List ℝ)
    (cands : List (String × List ℝ)) : List (String × ℝ) :=
  List.insertionSort scoreBefore
    (cands.map fun c => (c.1, score10 (cosineSim queryEmb c.2)))

/-! ## DocumentCache single-flight protocol

Modelled from the spec: the DocumentCache is not among the inspected sources.
The spec requires a keyed store with single-flight (request-coalescing)
semantics: at most one in-flight fetch/parse/chunk sequence per document id,
concurrent requesters for the same new id sharing the first requester's
computation.  The protocol for one id is modelled as a state machine over the
cache entry state and the counts of requester processes in each phase;
`fetches` counts started fetch/parse/chunk sequences. -/

/-- The cache entry state for one document id. -/
inductive CacheSt where
  | absent
  | inflight
  | done
deriving DecidableEq, Repr

/-- Global protocol state for one document id: the entry state, the fetch
counter, and how many requester processes are in each phase (`nStart` not yet
at the cache, `nWorking` leading the fetch, `nWaiting` joined on the leader's
in-flight computation, `nFinished` done). -/
structure SF where
  cache : CacheSt
  fetches : ℕ
  nStart : ℕ
  nWorking : ℕ
  nWaiting : ℕ
  nFinished : ℕ
deriving DecidableEq, Repr

/-- Modelled from the spec: one atomic step of the single-flight protocol.
A starting requester atomically either installs the in-flight marker and
starts the unique fetch (`install`), joins an existing in-flight computation
(`join`), or hits a completed entry (`hitDone`); the leader completes the
entry (`complete`); a waiter wakes once the entry is done (`wake`). -/
inductive SFStep : SF → SF → Prop where
  | install (f k w q d : ℕ) :
      SFStep ⟨.absent, f, k + 1, w, q, d⟩ ⟨.inflight, f + 1, k, w + 1, q, d⟩
  | join (f k w q d : ℕ) :
      SFStep ⟨.inflight, f, k + 1, w, q, d⟩ ⟨.inflight, f, k, w, q + 1, d⟩
  | hitDone (f k w q d : ℕ) :
      SFStep ⟨.done, f, k + 1, w, q, d⟩ ⟨.done, f, k, w, q, d + 1⟩
  | complete (f k w q d : ℕ) :
      SFStep ⟨.inflight, f, k, w + 1, q, d⟩ ⟨.done, f, k, w, q, d + 1⟩
  | wake (f k w q d : ℕ) :
      SFStep ⟨.done, f, k, w, q + 1, d⟩ ⟨.done, f, k, w, q, d + 1⟩

/-- Initial protocol state for `n` concurrent requesters of an id not yet in
the cache. -/
def initState (n : ℕ) : SF := ⟨.absent, 0, n, 0, 0, 0⟩

/-- Reachability under interleaved protocol steps. -/
def Reaches : SF → SF → Prop := Relation.ReflTransGen SFStep

/-- A state in which every requester has finished. -/
def terminalSF (s : SF) : Prop :=
  s.nStart = 0 ∧ s.nWorking = 0 ∧ s.nWaiting = 0

/-- The single-flight protocol invariant for `n` requesters: the requester
count is conserved; while the entry is absent nothing has happened yet; once
it is not absent exactly one fetch has been started; and there is a leader
exactly while the entry is in flight. -/
def Inv (n : ℕ) (s : SF) : Prop :=
  s.nStart + s.nWorking + s.nWaiting + s.nFinished = n ∧
  (s.cache = CacheSt.absent →
    s.fetches = 0 ∧ s.nWorking = 0 ∧ s.nWaiting = 0 ∧ s.nFinished = 0) ∧
  (s.cache ≠ CacheSt.absent → s.fetches = 1) ∧
  s.nWorking = (if s.cache = CacheSt.inflight then 1 else 0)

/-! ## ChatRetriever

Modelled from the spec: the ChatRetriever is not among the inspected sources.
Given a document id and the latest user turn it embeds the query, scores all
of the document's chunks by cosine similarity, selects the top 15 (ties by
chunk index), passes them in index order to a grounded generative call, and
fails closed with `UnknownDocument` — performing no fresh fetch — when the id
is not in the DocumentCache. -/

/-- Chat failure kinds relevant here. -/
inductive ChatError where
  | unknownDocument
deriving DecidableEq, Repr

/-- The observable side effects a chat call can perform. -/
inductive ChatAction where
  | fetchDocument
  | embedQuery
  | llmAnswer
deriving DecidableEq, Repr

/-- A processed document as held by the DocumentCache: its chunks with their
embeddings, keyed elsewhere by document id. -/
structure CachedDoc where
  chunks : List (ℕ × List ℝ)

/-- Index order on scored chunks, used to concatenate grounding chunks in
document order. -/
def byIndex {α : Type} (a b : ℕ × α) : Prop := a.1 ≤ b.1

instance {α : Type} : DecidableRel (@byIndex α) :=
  fun a b => inferInstanceAs (Decidable (a.1 ≤ b.1))

/-- Modelled from the spec: one chat call — fails closed with
`UnknownDocument` (no fetch, no other action) when the id is not cached;
otherwise retrieves the top 15 chunks by cosine score, orders them by index,
and produces a grounded answer through the black-box generative call
`answerFn`.  The second component lists the side effects performed. -/
noncomputable def chatCall (cache : List (String × CachedDoc)) (id : String)
    (queryEmb : List ℝ) (answerFn : List (ℕ × ℝ) → String) :
    Except ChatError String × List ChatAction :=
  match cache.lookup id with
  | none => (.error .unknownDocument, [])
  | some doc =>
      (.ok (answerFn (List.insertionSort byIndex
          (prefilterTop 15 (scoredChunks queryEmb doc.chunks)))),
        [.embedQuery, .llmAnswer])

/-- A sample extraction payload (all fields empty), used in concrete runs. -/
def samplePA : PaperAnalysis :=
  ⟨none, none, none, none, none, none, [], [], [], none, none, []⟩

/-- A sample related-papers payload, used in concrete runs. -/
def sampleRR : RelatedPapersResult :=
  ⟨[⟨"2301.00001", "A Paper", ["A. Author"], "An abstract.", "u", 7⟩]⟩

/-! ## Chunker lemmas -/

theorem chunksGo_map_index (size : ℕ) :
    ∀ fuel (ws : List String), ws.length ≤ fuel → ∀ i,
      (chunksGo size fuel i ws).map Chunk.index =
        List.range' i (chunksGo size fuel i ws).length := by
  intro fuel
  induction fuel with
  | zero => intro ws _ i; simp [chunksGo]
  | succ n ih =>
    intro ws hlen i
    rw [chunksGo]
    by_cases h : ws = [] ∨ size = 0
    · rw [if_pos h]; simp
    · push_neg at h
      have hcond : ¬(ws = [] ∨ size = 0) := by
        intro hc; rcases hc with hc | hc
        · exact h.1 hc
        · exact h.2 hc
      have hdrop : (ws.drop size).length ≤ n := by
        have hw : 0 < ws.length := List.length_pos.mpr h.1
        have hs : 0 < size := Nat.pos_of_ne_zero h.2
        simp only [List.length_drop]
        omega
      rw [if_neg hcond]
      simp only [List.map_cons, List.length_cons, ih _ hdrop (i + 1)]
      rfl

theorem chunksGo_flatten (size : ℕ) (hs : 0 < size) :
    ∀ fuel (ws : List String), ws.length ≤ fuel → ∀ i,
      ((chunksGo size fuel i ws).map Chunk.words).flatten = ws := by
  intro fuel
  induction fuel with
  | zero =>
    intro ws hlen i
    have hnil : ws = [] := List.length_eq_zero.mp (Nat.le_zero.mp hlen)
    simp [chunksGo, hnil]
  | succ n ih =>
    intro ws hlen i
    rw [chunksGo]
    by_cases h : ws = []
    · rw [if_pos (Or.inl h)]; simp [h]
    · have hcond : ¬(ws = [] ∨ size = 0) := by
        intro hc; rcases hc with hc | hc
        · exact h hc
        · omega
      have hdrop : (ws.drop size).length ≤ n := by
        have hw : 0 < ws.length := List.length_pos.mpr h
        simp only [List.length_drop]
        omega
      rw [if_neg hcond]
      simp only [List.map_cons, List.flatten_cons, ih _ hdrop (i + 1)]
      exact List.take_append_drop size ws

/-- C4: for every normalized text, the Chunker produces chunks whose indices
form the contiguous range [0, n) starting at 0; for a positive chunk size,
concatenating the chunk texts in index order reproduces the text modulo
whitespace normalization (equality of word sequences); the empty text yields
the empty chunk sequence, not an error. -/
theorem chunker_contiguous_reconstruction (size : ℕ) (t : String) :
    (chunkText size t).map Chunk.index = List.range (chunkText size t).length ∧
    (0 < size → ((chunkText size t).map Chunk.words).flatten = wordsOf t) ∧
    chunkText size "" = [] := by
  refine ⟨?_, ?_, rfl⟩
  · simp only [chunkText]
    rw [List.range_eq_range']
    exact chunksGo_map_index size (wordsOf t).length (wordsOf t) le_rfl 0
  · intro hs
    exact chunksGo_flatten size hs (wordsOf t).length (wordsOf t) le_rfl 0

/-- Witness for C4 at chunk size 2 and the text "a b c". -/
theorem chunker_contiguous_reconstruction_witness :
    0 < 2 ∧
    ((chunkText 2 "a b c").map Chunk.words).flatten = wordsOf "a b c" ∧
    chunkText 2 "a b c" = [⟨0, ["a", "b"]⟩, ⟨1, ["c"]⟩] :=
  ⟨by norm_num,
   (chunker_contiguous_reconstruction 2 "a b c").2.1 (by norm_num),
   by decide⟩

/-! ## Similarity engine lemmas -/

theorem dot_self_nonneg (v : List ℝ) : 0 ≤ dot v v := by
  induction v with
  | nil => simp [dot]
  | cons x u ih => simp only [dot]; nlinarith [sq_nonneg x]

theorem dot_sq_le (u : List ℝ) :
    ∀ v : List ℝ, dot u v ^ 2 ≤ dot u u * dot v v := by
  induction u with
  | nil => intro v; simp [dot]
  | cons x u ih =>
    intro v
    cases v with
    | nil =>
      simp only [dot]
      nlinarith [dot_self_nonneg (x :: u), sq_nonneg x, dot_self_nonneg u]
    | cons y w =>
      have hA := dot_self_nonneg u
      have hB := dot_self_nonneg w
      have hI := ih w
      simp only [dot]
      rcases eq_or_lt_of_le hB with hB0 | hBpos
      · have hD : dot u w = 0 := by nlinarith [sq_nonneg (dot u w)]
        rw [hD, ← hB0]
        nlinarith [mul_nonneg hA (sq_nonneg y)]
      · nlinarith [sq_nonneg (x * dot w w - y * dot u w),
          mul_nonneg (add_nonneg (sq_nonneg y) hB) (sub_nonneg.mpr hI)]

theorem magnitude_nonneg (v : List ℝ) : 0 ≤ magnitude v :=
  Real.sqrt_nonneg _

theorem dot_le_mag_mul (u v : List ℝ) :
    dot u v ≤ magnitude u * magnitude v := by
  have h4 : Real.sqrt (dot u u * dot v v) = magnitude u * magnitude v := by
    rw [magnitude, magnitude, Real.sqrt_mul (dot_self_nonneg u)]
  calc dot u v ≤ |dot u v| := le_abs_self _
    _ = Real.sqrt (dot u v ^ 2) := (Real.sqrt_sq_eq_abs _).symm
    _ ≤ Real.sqrt (dot u u * dot v v) := Real.sqrt_le_sqrt (dot_sq_le u v)
    _ = magnitude u * magnitude v := h4

theorem cosineSim_le_one (u v : List ℝ) : cosineSim u v ≤ 1 := by
  rw [cosineSim]
  split_ifs with h
  · norm_num
  · push_neg at h
    have hu : 0 < magnitude u :=
      lt_of_le_of_ne (magnitude_nonneg u) (Ne.symm h.1)
    have hv : 0 < magnitude v :=
      lt_of_le_of_ne (magnitude_nonneg v) (Ne.symm h.2)
    rw [div_le_one (mul_pos hu hv)]
    exact dot_le_mag_mul u v

theorem cosineSim_self (v : List ℝ) (h : magnitude v ≠ 0) :
    cosineSim v v = 1 := by
  have hd : dot v v ≠ 0 := by
    intro h0
    exact h (by rw [magnitude, h0, Real.sqrt_zero])
  rw [cosineSim, if_neg (fun hc => h (hc.elim id id)), magnitude,
    Real.mul_self_sqrt (dot_self_nonneg v), div_self hd]

theorem score100_nonneg (c : ℝ) : 0 ≤ score100 c :=
  mul_nonneg (le_max_right c 0) (by norm_num)

theorem score100_le_of_le_one {c : ℝ} (h : c ≤ 1) : score100 c ≤ 100 := by
  have hm : max c 0 ≤ 1 := max_le h zero_le_one
  calc max c 0 * 100 ≤ 1 * 100 :=
        mul_le_mul_of_nonneg_right hm (by norm_num)
    _ = 100 := by norm_num

theorem score10_nonneg (c : ℝ) : 0 ≤ score10 c :=
  mul_nonneg (le_max_right c 0) (by norm_num)

theorem score10_le_of_le_one {c : ℝ} (h : c ≤ 1) : score10 c ≤ 10 := by
  have hm : max c 0 ≤ 1 := max_le h zero_le_one
  calc max c 0 * 10 ≤ 1 * 10 := mul_le_mul_of_nonneg_right hm (by norm_num)
    _ = 10 := by norm_num

theorem clamp100_nonneg (x : ℝ) : 0 ≤ clamp100 x :=
  le_min (le_max_right x 0) (by norm_num)

theorem clamp100_le (x : ℝ) : clamp100 x ≤ 100 := min_le_right _ _

/-! ## Ranking lemmas -/

theorem mem_of_mem_prefilterTop {α : Type} [LinearOrder α] {k : ℕ}
    {l : List (ℕ × α)} {x : ℕ × α} (h : x ∈ prefilterTop k l) : x ∈ l :=
  (List.perm_insertionSort chunkBefore l).subset (List.take_subset k _ h)

theorem prefilterTop_sorted {α : Type} [LinearOrder α] (k : ℕ)
    (l : List (ℕ × α)) : List.Sorted chunkBefore (prefilterTop k l) :=
  List.Pairwise.sublist (List.take_sublist k _)
    (List.sorted_insertionSort chunkBefore l)

theorem prefilterTop_length {α : Type} [LinearOrder α] (k : ℕ)
    (l : List (ℕ × α)) : (prefilterTop k l).length = min k l.length := by
  rw [prefilterTop, List.length_take,
    (List.perm_insertionSort chunkBefore l).length_eq]

theorem prefilterTop_cross {α : Type} [LinearOrder α] (k : ℕ)
    (l : List (ℕ × α)) {x y : ℕ × α} (hx : x ∈ prefilterTop k l) (hy : y ∈ l)
    (hny : y ∉ prefilterTop k l) : chunkBefore x y := by
  have hsor : List.Pairwise chunkBefore (List.insertionSort chunkBefore l) :=
    List.sorted_insertionSort chunkBefore l
  have hyL : y ∈ List.insertionSort chunkBefore l :=
    (List.perm_insertionSort chunkBefore l).symm.subset hy
  rw [← List.take_append_drop k (List.insertionSort chunkBefore l)] at hsor hyL
  have hcross := (List.pairwise_append.mp hsor).2.2
  rcases List.mem_append.mp hyL with h | h
  · exact absurd h hny
  · exact hcross x hx y h

theorem mem_topChunksOf {queryEmb : List ℝ} {cs : List (ℕ × List ℝ)}
    {sel : List (ℕ × ℝ) → List (ℕ × ℝ)} {p : ℕ × ℝ}
    (h : p ∈ topChunksOf queryEmb cs sel) :
    p ∈ prefilterTop 20 (scoredChunks queryEmb cs) := by
  simp only [topChunksOf] at h
  have h1 := List.take_subset 5 _ h
  have h2 := (List.mem_filter.mp h1).2
  exact of_decide_eq_true h2

theorem mem_scoredChunks {queryEmb : List ℝ} {cs : List (ℕ × List ℝ)}
    {p : ℕ × ℝ} (h : p ∈ scoredChunks queryEmb cs) :
    ∃ c ∈ cs, p = (c.1, score100 (cosineSim queryEmb c.2)) := by
  rcases List.mem_map.mp h with ⟨c, hc, he⟩
  exact ⟨c, hc, he.symm⟩

/-! ## Similarity claim theorems -/

/-- C5: cosine similarity is the dot product divided by the product of the
magnitudes, treated as 0 when either magnitude is 0; consequently the
self-similarity of any vector of nonzero magnitude scales to 100 under the
0–100 policy, and orthogonal vectors scale to 0. -/
theorem cosine_definition_self_orthogonal :
    (∀ u v : List ℝ, magnitude u ≠ 0 → magnitude v ≠ 0 →
      cosineSim u v = dot u v / (magnitude u * magnitude v)) ∧
    (∀ u v : List ℝ, magnitude u = 0 ∨ magnitude v = 0 → cosineSim u v = 0) ∧
    (∀ v : List ℝ, magnitude v ≠ 0 → score100 (cosineSim v v) = 100) ∧
    (∀ u v : List ℝ, dot u v = 0 → score100 (cosineSim u v) = 0) := by
  refine ⟨fun u v hu hv => ?_, fun u v h => if_pos h, fun v hv => ?_,
    fun u v h => ?_⟩
  · exact if_neg (fun hc => hc.elim hu hv)
  · rw [cosineSim_self v hv, score100, max_eq_left zero_le_one, one_mul]
  · have hc : cosineSim u v = 0 := by
      rw [cosineSim]
      split_ifs with hz
      · rfl
      · rw [h, zero_div]
    rw [hc, score100, max_self, zero_mul]

/-- Witness for C5 at the vectors [3,4] (self-similarity) and
[1,0] ⊥ [0,1] (orthogonality). -/
theorem cosine_definition_self_orthogonal_witness :
    magnitude [(3 : ℝ), 4] ≠ 0 ∧
    score100 (cosineSim [(3 : ℝ), 4] [3, 4]) = 100 ∧
    dot [(1 : ℝ), 0] [0, 1] = 0 ∧
    score100 (cosineSim [(1 : ℝ), 0] [0, 1]) = 0 := by
  have hdot : dot [(3 : ℝ), 4] [3, 4] = 25 := by norm_num [dot]
  have hmag : magnitude [(3 : ℝ), 4] = 5 := by
    rw [magnitude, hdot, show (25 : ℝ) = 5 ^ 2 by norm_num,
      Real.sqrt_sq (by norm_num)]
  have hm : magnitude [(3 : ℝ), 4] ≠ 0 := by rw [hmag]; norm_num
  have horth : dot [(1 : ℝ), 0] [0, 1] = 0 := by norm_num [dot]
  exact ⟨hm, cosine_definition_self_orthogonal.2.2.1 _ hm, horth,
    cosine_definition_self_orthogonal.2.2.2 _ _ horth⟩

/-- C2: the abstract-level relevance score is the arithmetic mean — equal
weighting, no other weighting — of the embedding-cosine score of the
expanded query against the abstract and the (range-coerced) model-estimated
similarity of the same two texts: it equals their sum halved and sits
equidistant from both components. -/
theorem abstract_score_arithmetic_mean (queryEmb absEmb : List ℝ)
    (llmSim : ℝ) :
    scoreAbstract queryEmb absEmb llmSim =
      (score100 (cosineSim queryEmb absEmb) + clamp100 llmSim) / 2 ∧
    scoreAbstract queryEmb absEmb llmSim
        - score100 (cosineSim queryEmb absEmb) =
      clamp100 llmSim - scoreAbstract queryEmb absEmb llmSim := by
  constructor
  · rfl
  · rw [scoreAbstract]; ring

/-- C1: every similarity score surfaced to a caller lies within its declared
bounds: the abstract score and every top-chunk score lie in [0, 100], and
every related-paper score lies in [0, 10], even when the raw cosine
similarity is negative (negatives are clamped to 0 before scaling). -/
theorem scores_within_declared_bounds :
    (∀ (queryEmb absEmb : List ℝ) (llmSim : ℝ),
      0 ≤ scoreAbstract queryEmb absEmb llmSim ∧
      scoreAbstract queryEmb absEmb llmSim ≤ 100) ∧
    (∀ (queryEmb : List ℝ) (cs : List (ℕ × List ℝ))
      (sel : List (ℕ × ℝ) → List (ℕ × ℝ)) (p : ℕ × ℝ),
      p ∈ topChunksOf queryEmb cs sel → 0 ≤ p.2 ∧ p.2 ≤ 100) ∧
    (∀ (queryEmb : List ℝ) (cands : List (String × List ℝ))
      (p : String × ℝ),
      p ∈ relatedRanked queryEmb cands → 0 ≤ p.2 ∧ p.2 ≤ 10) := by
  refine ⟨fun q a llm => ?_, fun q cs sel p hp => ?_, fun q cands p hp => ?_⟩
  · have h1 := score100_nonneg (cosineSim q a)
    have h2 := score100_le_of_le_one (cosineSim_le_one q a)
    have h3 := clamp100_nonneg llm
    have h4 := clamp100_le llm
    rw [scoreAbstract]
    constructor <;> linarith
  · have h1 := mem_of_mem_prefilterTop (mem_topChunksOf hp)
    rcases mem_scoredChunks h1 with ⟨c, _, he⟩
    rw [he]
    exact ⟨score100_nonneg _, score100_le_of_le_one (cosineSim_le_one _ _)⟩
  · have h1 : p ∈ cands.map fun c => (c.1, score10 (cosineSim q c.2)) :=
      (List.perm_insertionSort scoreBefore _).subset hp
    rcases List.mem_map.mp h1 with ⟨c, _, he⟩
    rw [← he]
    exact ⟨score10_nonneg _, score10_le_of_le_one (cosineSim_le_one _ _)⟩

/-- Witness for C1: at query embedding [1] and a chunk/abstract embedding
[-1] the raw cosine is negative, and the surfaced scores still sit inside
their declared bounds. -/
theorem scores_within_declared_bounds_witness :
    (0 ≤ scoreAbstract [(1 : ℝ)] [-1] 150 ∧
      scoreAbstract [(1 : ℝ)] [-1] 150 ≤ 100) ∧
    (0 ≤ score100 (cosineSim [(1 : ℝ)] [-1]) ∧
      score100 (cosineSim [(1 : ℝ)] [-1]) ≤ 100) ∧
    (0 ≤ score10 (cosineSim [(1 : ℝ)] [-1]) ∧
      score10 (cosineSim [(1 : ℝ)] [-1]) ≤ 10) := by
  have hmem : ((0 : ℕ), score100 (cosineSim [(1 : ℝ)] [-1]))
      ∈ topChunksOf [(1 : ℝ)] [(0, [-1])] id := by
    simp [topChunksOf, prefilterTop, scoredChunks]
  have hmem2 : ("2301.00001", score10 (cosineSim [(1 : ℝ)] [-1]))
      ∈ relatedRanked [(1 : ℝ)] [("2301.00001", [-1])] := by
    simp [relatedRanked]
  exact ⟨scores_within_declared_bounds.1 [1] [-1] 150,
    scores_within_declared_bounds.2.1 [1] [(0, [-1])] id _ hmem,
    scores_within_declared_bounds.2.2 [1] [("2301.00001", [-1])] _ hmem2⟩

/-- C3: chunk-level scoring follows the two-stage funnel — every chunk is
scored independently by cosine similarity against the expanded-query
embedding; the numeric prefilter keeps exactly the top 20 by score (ties
broken by lower chunk index: it is sorted under `chunkBefore` and every kept
entry precedes every dropped entry); the language-model filter then selects
and orders the returned chunks, at most 5, all drawn from the 20
candidates. -/
theorem chunk_funnel_two_stage (queryEmb : List ℝ) (cs : List (ℕ × List ℝ))
    (sel : List (ℕ × ℝ) → List (ℕ × ℝ)) :
    scoredChunks queryEmb cs
      = cs.map (fun c => (c.1, score100 (cosineSim queryEmb c.2))) ∧
    (prefilterTop 20 (scoredChunks queryEmb cs)).length = min 20 cs.length ∧
    List.Sorted chunkBefore (prefilterTop 20 (scoredChunks queryEmb cs)) ∧
    (∀ x y, x ∈ prefilterTop 20 (scoredChunks queryEmb cs) →
      y ∈ scoredChunks queryEmb cs →
      y ∉ prefilterTop 20 (scoredChunks queryEmb cs) → chunkBefore x y) ∧
    (topChunksOf queryEmb cs sel).length ≤ 5 ∧
    (∀ p, p ∈ topChunksOf queryEmb cs sel →
      p ∈ prefilterTop 20 (scoredChunks queryEmb cs)) := by
  refine ⟨rfl, ?_, prefilterTop_sorted 20 _,
    fun x y hx hy hny => prefilterTop_cross 20 _ hx hy hny, ?_,
    fun p hp => mem_topChunksOf hp⟩
  · rw [prefilterTop_length]
    simp [scoredChunks]
  · simp only [topChunksOf]
    exact List.length_take_le 5 _

/-- Witness for C3 at a one-chunk document: the returned chunk is among the
prefilter candidates and the funnel returns at most 5 chunks. -/
theorem chunk_funnel_two_stage_witness :
    (topChunksOf [(1 : ℝ)] [(0, [2])] id).length ≤ 5 ∧
    ((0 : ℕ), score100 (cosineSim [(1 : ℝ)] [2]))
      ∈ prefilterTop 20 (scoredChunks [(1 : ℝ)] [(0, [2])]) := by
  have hmem : ((0 : ℕ), score100 (cosineSim [(1 : ℝ)] [2]))
      ∈ topChunksOf [(1 : ℝ)] [(0, [2])] id := by
    simp [topChunksOf, prefilterTop, scoredChunks]
  exact ⟨(chunk_funnel_two_stage [1] [(0, [2])] id).2.2.2.2.1,
    (chunk_funnel_two_stage [1] [(0, [2])] id).2.2.2.2.2 _ hmem⟩

/-! ## Single-flight protocol theorems -/

theorem inv_initState (n : ℕ) : Inv n (initState n) := by
  simp [Inv, initState]

theorem inv_step {n : ℕ} {s t : SF} (h : Inv n s) (hst : SFStep s t) :
    Inv n t := by
  cases hst <;> simp_all [Inv] <;> omega

theorem inv_reaches {n : ℕ} {s : SF} (h : Reaches (initState n) s) :
    Inv n s := by
  have h' : Relation.ReflTransGen SFStep (initState n) s := h
  clear h
  induction h' with
  | refl => exact inv_initState n
  | tail _ hst ih => exact inv_step ih hst

/-- C6: in any interleaving of the single-flight protocol, at most one
fetch/parse/chunk sequence is in flight at a time, and once all of the `n ≥ 1`
concurrent requesters for a new document id have finished, exactly one fetch
has occurred in total — every requester other than the leader joined the
leader's in-flight computation or hit the completed entry. -/
theorem single_flight_unique_fetch (n : ℕ) (s : SF)
    (h : Reaches (initState n) s) :
    s.nWorking ≤ 1 ∧ (terminalSF s → 0 < n → s.fetches = 1) := by
  rcases inv_reaches h with ⟨hsum, habs, hnabs, hw⟩
  constructor
  · rw [hw]; split_ifs <;> omega
  · intro ht hn
    rcases ht with ⟨h1, h2, h3⟩
    by_cases hc : s.cache = CacheSt.absent
    · rcases habs hc with ⟨_, _, _, h4⟩
      omega
    · exact hnabs hc

/-- Witness for C6: a complete two-requester schedule — the first requester
installs the in-flight entry and fetches, completes, and the second hits the
finished entry — reaches a terminal state with exactly one fetch. -/
theorem single_flight_unique_fetch_witness :
    (⟨CacheSt.done, 1, 0, 0, 0, 2⟩ : SF).fetches = 1 ∧
    (⟨CacheSt.done, 1, 0, 0, 0, 2⟩ : SF).nWorking ≤ 1 := by
  have hreach : Reaches (initState 2) ⟨CacheSt.done, 1, 0, 0, 0, 2⟩ :=
    Relation.ReflTransGen.head (SFStep.install 0 1 0 0 0)
      (Relation.ReflTransGen.head (SFStep.complete 1 1 0 0 0)
        (Relation.ReflTransGen.head (SFStep.hitDone 1 0 0 0 1)
          Relation.ReflTransGen.refl))
  have h := single_flight_unique_fetch 2 _ hreach
  exact ⟨h.2 ⟨rfl, rfl, rfl⟩ (by norm_num), h.1⟩

/-! ## Chat retriever theorems -/

/-- C7: a chat call against a document id not present in the DocumentCache
fails with `UnknownDocument`, performs no document fetch (no side effect at
all), and never succeeds. -/
theorem chat_unknown_fails_closed (cache : List (String × CachedDoc))
    (id : String) (queryEmb : List ℝ) (answerFn : List (ℕ × ℝ) → String)
    (h : cache.lookup id = none) :
    chatCall cache id queryEmb answerFn
      = (Except.error ChatError.unknownDocument, []) ∧
    ChatAction.fetchDocument ∉ (chatCall cache id queryEmb answerFn).2 ∧
    ∀ ans, (chatCall cache id queryEmb answerFn).1 ≠ Except.ok ans := by
  have he : chatCall cache id queryEmb answerFn
      = (Except.error ChatError.unknownDocument, []) := by
    simp only [chatCall, h]
  exact ⟨he, by rw [he]; simp, fun ans => by rw [he]; simp⟩

/-- Witness for C7 at the empty cache. -/
theorem chat_unknown_fails_closed_witness :
    chatCall [] "2301.00001" [] (fun _ => "")
      = (Except.error ChatError.unknownDocument, []) :=
  (chat_unknown_fails_closed [] "2301.00001" [] (fun _ => "") rfl).1

/-! ## Frontend claim theorems -/

/-- C10: the chat transcript is append-only and `handleSend` is a no-op when
its guard fails: blank trimmed input, an in-flight request, or a blank
trimmed arXiv id leave the transcript untouched and send no request;
otherwise exactly one user turn and one assistant turn are appended (the
answer on success, the fixed error message on failure), so existing turns
are never removed or reordered. -/
theorem handleSend_guard_append (arxivId input : String) (loading : Bool)
    (ms : List ChatMessage) (outcome : Option String) :
    ((strTrim input = "" ∨ loading = true ∨ strTrim arxivId = "") →
      handleSend arxivId input loading ms outcome = (ms, false)) ∧
    (strTrim input ≠ "" → loading = false → strTrim arxivId ≠ "" →
      handleSend arxivId input loading ms outcome =
        (ms ++ [⟨Role.user, strTrim input⟩,
          ⟨Role.assistant, outcome.getD errorReply⟩], true)) ∧
    (∀ ans, outcome = some ans →
      (handleSend arxivId input loading ms outcome).1 = ms ∨
      (handleSend arxivId input loading ms outcome).1 =
        ms ++ [⟨Role.user, strTrim input⟩, ⟨Role.assistant, ans⟩]) ∧
    (∃ tail, (handleSend arxivId input loading ms outcome).1 = ms ++ tail) :=
  by
  by_cases h1 : strTrim input = ""
  · refine ⟨fun _ => by simp [handleSend, h1], fun hc => absurd h1 hc,
      fun ans hoc => Or.inl (by simp [handleSend, h1]),
      ⟨[], by simp [handleSend, h1]⟩⟩
  · cases loading with
    | true =>
      refine ⟨fun _ => by simp [handleSend], fun _ h => by simp at h,
        fun ans hoc => Or.inl (by simp [handleSend]),
        ⟨[], by simp [handleSend]⟩⟩
    | false =>
      by_cases h3 : strTrim arxivId = ""
      · refine ⟨fun _ => by simp [handleSend, h1, h3], fun _ _ hc => absurd h3 hc,
          fun ans hoc => Or.inl (by simp [handleSend, h1, h3]),
          ⟨[], by simp [handleSend, h1, h3]⟩⟩
      · refine ⟨fun hg => ?_, fun _ _ _ => by simp [handleSend, h1, h3],
          fun ans hoc => Or.inr (by simp [handleSend, h1, h3, hoc]),
          ⟨[⟨Role.user, strTrim input⟩,
            ⟨Role.assistant, outcome.getD errorReply⟩],
            by simp [handleSend, h1, h3]⟩⟩
        rcases hg with hg | hg | hg
        · exact absurd hg h1
        · exact absurd hg (by simp)
        · exact absurd hg h3

/-- Witness for C10: a guarded no-op (in-flight request) and a successful
send appending exactly the user and assistant turns. -/
theorem handleSend_guard_append_witness :
    handleSend "1234.5678" "What dataset was used?" true [] (some "ImageNet")
      = ([], false) ∧
    handleSend "1234.5678" " What dataset was used? " false []
        (some "ImageNet")
      = ([⟨Role.user, "What dataset was used?"⟩,
          ⟨Role.assistant, "ImageNet"⟩], true) :=
  ⟨(handleSend_guard_append "1234.5678" "What dataset was used?" true []
      (some "ImageNet")).1 (Or.inr (Or.inl rfl)),
   by
    have h := (handleSend_guard_append "1234.5678" " What dataset was used? "
      false [] (some "ImageNet")).2.1 (by decide) rfl (by decide)
    simpa using h⟩

/-- C9 counterexample: with a blank arXiv input the guard throws before any
request is created, so the similarity request is not issued even though the
research prompt is non-blank — the claimed "if and only if" fails. -/
theorem issuedRequests_iff_counterexample :
    Endpoint.similarity ∉ issuedRequests "" "x" ∧ strTrim "x" ≠ "" := by
  decide

/-- C9 (amended): provided the arXiv input is non-blank after trimming
(otherwise the handler throws before issuing any request), the similarity
and related-papers requests are issued iff the research prompt is non-blank
after trimming; when the prompt is blank only the extraction request is
issued and the similarity and relatedPapers results remain null. -/
theorem issuedRequests_iff_prompt (a p : String) (ext : Resp PaperAnalysis)
    (sim : Resp SimilarityResult) (rel : Resp RelatedPapersResult)
    (ha : strTrim a ≠ "") :
    (Endpoint.similarity ∈ issuedRequests a p ↔ strTrim p ≠ "") ∧
    (Endpoint.related ∈ issuedRequests a p ↔ strTrim p ≠ "") ∧
    (strTrim p = "" →
      issuedRequests a p = [Endpoint.extraction] ∧
      (handleAnalyze a p ext sim rel).similarity = none ∧
      (handleAnalyze a p ext sim rel).relatedPapers = none) := by
  by_cases hp : strTrim p = ""
  · refine ⟨?_, ?_, fun _ => ⟨by simp [issuedRequests, ha, hp], ?_, ?_⟩⟩
    · simp [issuedRequests, ha, hp]
    · simp [issuedRequests, ha, hp]
    · cases ext <;> simp [handleAnalyze, ha, hp]
    · cases ext <;> simp [handleAnalyze, ha, hp]
  · exact ⟨by simp [issuedRequests, ha, hp], by simp [issuedRequests, ha, hp],
      fun hc => absurd hc hp⟩

/-- Witness for C9's amended claim at a non-blank arXiv input and a blank
prompt. -/
theorem issuedRequests_iff_prompt_witness :
    strTrim "1707.01001" ≠ "" ∧
    issuedRequests "1707.01001" "" = [Endpoint.extraction] ∧
    (handleAnalyze "1707.01001" "" (.ok samplePA) .fail .fail).similarity
      = none :=
  ⟨by decide,
   (((issuedRequests_iff_prompt "1707.01001" "" (.ok samplePA) .fail .fail
      (by decide)).2.2) rfl).1,
   (((issuedRequests_iff_prompt "1707.01001" "" (.ok samplePA) .fail .fail
      (by decide)).2.2) rfl).2.1⟩

/-- C8 counterexample: the three responses are examined sequentially with
throw-on-first-failure, so when the similarity request fails the successful
related-papers response is never stored — a failure in one sub-pipeline does
suppress another sub-pipeline's successful result. -/
theorem analyze_suppression_counterexample :
    (handleAnalyze "1234.5678" "segmentation" (.ok samplePA) .fail
      (.ok sampleRR)).relatedPapers = none ∧
    (handleAnalyze "1234.5678" "segmentation" (.ok samplePA) .fail
      (.ok sampleRR)).error = some "Similarity computation failed." := by
  decide

/-- C8 (amended): responses are examined sequentially with
throw-on-first-failure, so a failure in similarity or related-paper
discovery never suppresses a successful extraction result (which is stored
first); but an extraction failure suppresses the similarity and related
results, and a similarity failure suppresses a successful related-papers
result. -/
theorem analyze_failure_isolation (a p : String) (d : PaperAnalysis)
    (sim : Resp SimilarityResult) (rel : Resp RelatedPapersResult)
    (ha : strTrim a ≠ "") :
    (handleAnalyze a p (.ok d) sim rel).response = some d ∧
    (strTrim p ≠ "" →
      (handleAnalyze a p (.ok d) .fail rel).similarity = none ∧
      (handleAnalyze a p (.ok d) .fail rel).relatedPapers = none) ∧
    ((handleAnalyze a p .fail sim rel).response = none ∧
      (handleAnalyze a p .fail sim rel).similarity = none ∧
      (handleAnalyze a p .fail sim rel).relatedPapers = none) := by
  refine ⟨?_, fun hp => ⟨by simp [handleAnalyze, ha, hp], by
    simp [handleAnalyze, ha, hp]⟩, by simp [handleAnalyze, ha]⟩
  by_cases hp : strTrim p = ""
  · simp [handleAnalyze, ha, hp]
  · cases sim with
    | fail => simp [handleAnalyze, ha, hp]
    | ok simData => cases rel <;> simp [handleAnalyze, ha, hp]

/-- Witness for C8's amended claim: extraction succeeded, similarity failed,
related papers succeeded — the extraction result is still reported. -/
theorem analyze_failure_isolation_witness :
    (handleAnalyze "1234.5678" "seg" (.ok samplePA) .fail
      (.ok sampleRR)).response = some samplePA :=
  (analyze_failure_isolation "1234.5678" "seg" samplePA .fail (.ok sampleRR)
    (by decide)).1

end ArXtract
